import Mathlib

/-!
Verification of the Merkle-tree membership and nullifier core of an airdrop
claim system. The development embeds, from the Rust sources:

* `src/core/src/lib.rs` — hash primitives (`compute_leaf`, `hash_pair` over
  SHA-256), `verify_merkle_proof`, `compute_nullifier`, and the claim data
  types;
* `src/host/src/merkle.rs` — `MerkleTree::new`, `MerkleTree::compute_root`,
  `MerkleTree::get_proof`;
* `src/methods/guest/src/main.rs` — the guest entry (`verify_claim`), with
  its two `assert!` failures modelled as typed errors.

Bytes are `Nat` values below 256; hashes are lists of 32 bytes; the `u32`
leaf index and `u64` epoch are `Nat` (the only arithmetic performed on the
index is parity and halving, which agree with the machine semantics).
-/

/-- Bytes are natural numbers below 256. -/
abbrev Byte := Nat

/-- Hashes and tree nodes are byte lists (32 bytes for SHA-256 digests). -/
abbrev Hash := List Byte

/-- Addition modulo 2^32, the word addition used by SHA-256. -/
def add32 (a b : Nat) : Nat := (a + b) % 4294967296

/-- Right rotation of a 32-bit word by n bits. -/
def rotr (n x : Nat) : Nat := x / 2 ^ n + x % 2 ^ n * 2 ^ (32 - n)

/-- Logical right shift of a 32-bit word by n bits. -/
def shr (n x : Nat) : Nat := x / 2 ^ n

/-- Bitwise xor on 32-bit words. -/
def xor32 (a b : Nat) : Nat := Nat.xor a b

/-- Bitwise and on 32-bit words. -/
def and32 (a b : Nat) : Nat := Nat.land a b

/-- Bitwise complement of a 32-bit word. -/
def not32 (a : Nat) : Nat := Nat.xor a 4294967295

/-- SHA-256 big Sigma-0 function. -/
def bigSigma0 (x : Nat) : Nat := xor32 (xor32 (rotr 2 x) (rotr 13 x)) (rotr 22 x)

/-- SHA-256 big Sigma-1 function. -/
def bigSigma1 (x : Nat) : Nat := xor32 (xor32 (rotr 6 x) (rotr 11 x)) (rotr 25 x)

/-- SHA-256 small sigma-0 function. -/
def smallSigma0 (x : Nat) : Nat := xor32 (xor32 (rotr 7 x) (rotr 18 x)) (shr 3 x)

/-- SHA-256 small sigma-1 function. -/
def smallSigma1 (x : Nat) : Nat := xor32 (xor32 (rotr 17 x) (rotr 19 x)) (shr 10 x)

/-- SHA-256 choice function. -/
def chFn (x y z : Nat) : Nat := xor32 (and32 x y) (and32 (not32 x) z)

/-- SHA-256 majority function. -/
def majFn (x y z : Nat) : Nat := xor32 (xor32 (and32 x y) (and32 x z)) (and32 y z)

/-- The 64 SHA-256 round constants (fractional parts of cube roots of the
first 64 primes). -/
def sha256K : List Nat :=
  [1116352408, 1899447441, 3049323471, 3921009573, 961987163, 1508970993, 2453635748,
   2870763221, 3624381080, 310598401, 607225278, 1426881987, 1925078388, 2162078206,
   2614888103, 3248222580, 3835390401, 4022224774, 264347078, 604807628, 770255983,
   1249150122, 1555081692, 1996064986, 2554220882, 2821834349, 2952996808, 3210313671,
   3336571891, 3584528711, 113926993, 338241895, 666307205, 773529912, 1294757372,
   1396182291, 1695183700, 1986661051, 2177026350, 2456956037, 2730485921, 2820302411,
   3259730800, 3345764771, 3516065817, 3600352804, 4094571909, 275423344, 430227734,
   506948616, 659060556, 883997877, 958139571, 1322822218, 1537002063, 1747873779,
   1955562222, 2024104815, 2227730452, 2361852424, 2428436474, 2756734187, 3204031479,
   3329325298]

/-- The initial SHA-256 state (fractional parts of square roots of the first
eight primes). -/
def sha256H0 : List Nat :=
  [1779033703, 3144134277, 1013904242, 2773480762, 1359893119, 2600822924, 528734635,
   1541459225]

/-- Big-endian encoding of a value into n bytes. -/
def beBytes : Nat → Nat → List Byte
  | 0, _ => []
  | n + 1, v => beBytes n (v / 256) ++ [v % 256]

/-- Little-endian encoding of a value into n bytes; models Rust's
fixed-width to_le_bytes. -/
def leBytes : Nat → Nat → List Byte
  | 0, _ => []
  | n + 1, v => v % 256 :: leBytes n (v / 256)

/-- SHA-256 message padding: append the 0x80 byte, then zeros up to 56 mod
64 bytes, then the 8-byte big-endian bit length. -/
def padMessage (msg : List Byte) : List Byte :=
  msg ++ [128] ++ List.replicate ((119 - msg.length % 64) % 64) 0 ++ beBytes 8 (8 * msg.length)

/-- Group a byte stream into big-endian 32-bit words. -/
def bytesToWords : List Byte → List Nat
  | b0 :: b1 :: b2 :: b3 :: rest =>
      (((b0 * 256 + b1) * 256 + b2) * 256 + b3) :: bytesToWords rest
  | _ => []

/-- Split a padded message into 64-byte blocks. -/
def chunks64 (l : List Byte) : List (List Byte) :=
  if h : l = [] then [] else
    l.take 64 :: chunks64 (l.drop 64)
termination_by l.length
decreasing_by
  simp only [List.length_drop]
  exact Nat.sub_lt (List.length_pos.mpr h) (by omega)

/-- Extend the 16-word message schedule by t further words. -/
def extendLoop : List Nat → Nat → List Nat
  | w, 0 => w
  | w, t + 1 =>
      extendLoop
        (w ++ [add32
          (add32 (smallSigma1 (w.getD (w.length - 2) 0)) (w.getD (w.length - 7) 0))
          (add32 (smallSigma0 (w.getD (w.length - 15) 0)) (w.getD (w.length - 16) 0))]) t

/-- One SHA-256 compression round on the eight-word state. -/
def compressRound (st : List Nat) (kw : Nat × Nat) : List Nat :=
  let a := st.getD 0 0
  let b := st.getD 1 0
  let c := st.getD 2 0
  let d := st.getD 3 0
  let e := st.getD 4 0
  let f := st.getD 5 0
  let g := st.getD 6 0
  let hh := st.getD 7 0
  let t1 := add32 (add32 (add32 hh (bigSigma1 e)) (add32 (chFn e f g) kw.1)) kw.2
  let t2 := add32 (bigSigma0 a) (majFn a b c)
  [add32 t1 t2, a, b, c, add32 d t1, e, f, g]

/-- Process one 64-byte block: schedule expansion, 64 compression rounds,
and Davies-Meyer feed-forward. -/
def processBlock (h : List Nat) (block : List Byte) : List Nat :=
  let w := extendLoop (bytesToWords block) 48
  let st := (sha256K.zip w).foldl compressRound h
  List.zipWith add32 h st

/-- Full SHA-256 of a byte string, returning the 32-byte digest. This is the
hash the Rust code obtains from the sha2 crate. -/
def sha256 (msg : List Byte) : List Byte :=
  (((chunks64 (padMessage msg)).foldl processBlock sha256H0).map (beBytes 4)).flatten

/-- Leaf hash of an address, from compute_leaf in src/core/src/lib.rs: a
single SHA-256 of the 20 address bytes. -/
def compute_leaf (address : List Byte) : Hash := sha256 address

/-- Parent hash of an ordered node pair, from hash_pair in
src/core/src/lib.rs: SHA-256 of left followed by right. Incremental
update calls on the hasher are hashing of the concatenation. -/
def hash_pair (left right : Hash) : Hash := sha256 (left ++ right)

/-- Loop body of verify_merkle_proof from src/core/src/lib.rs: consume the
proof elements in order, tracking the computed hash and the halving index. -/
def verifyLoop : Hash → List Hash → Nat → Hash
  | computed, [], _ => computed
  | computed, e :: rest, ci =>
      verifyLoop (if ci % 2 = 0 then hash_pair computed e else hash_pair e computed) rest (ci / 2)

/-- Merkle proof verifier, from verify_merkle_proof in src/core/src/lib.rs:
run the loop from the leaf and compare the final hash with the root. -/
def verify_merkle_proof (leaf : Hash) (proof : List Hash) (index : Nat) (root : Hash) : Bool :=
  verifyLoop leaf proof index == root

/-- Nullifier derivation, from compute_nullifier in src/core/src/lib.rs:
SHA-256 of the address bytes followed by the 8-byte little-endian epoch. -/
def compute_nullifier (address : List Byte) (epoch_id : Nat) : Hash :=
  sha256 (address ++ leBytes 8 epoch_id)

/-- Errors of the Merkle tree builder and extractor, named as in the spec;
the Rust code signals both by assert panics. -/
inductive MerkleError where
  | EmptyInputError
  | IndexOutOfRangeError
deriving DecidableEq

/-- A Merkle tree as in src/host/src/merkle.rs: the leaf sequence and the
derived root. -/
structure MerkleTree where
  leaves : List Hash
  root : Hash
deriving DecidableEq

/-- One pass of the inner level-reduction loop of compute_root: pair
adjacent nodes left to right; a final unpaired node is hashed with itself. -/
def pairUp : List Hash → List Hash
  | [] => []
  | [x] => [hash_pair x x]
  | x :: y :: rest => hash_pair x y :: pairUp rest

/-- The reduced level halves in length, rounding up. -/
theorem pairUp_length (l : List Hash) : (pairUp l).length = (l.length + 1) / 2 := by
  match l with
  | [] => rfl
  | [x] => simp [pairUp]
  | x :: y :: rest =>
      simp only [pairUp, List.length_cons, pairUp_length rest]
      omega

/-- Root computation from MerkleTree::compute_root in src/host/src/merkle.rs:
reduce level by level while more than one node remains. On the empty list
(never reached from new) the Rust code would panic; here it returns []. -/
def compute_root (leaves : List Hash) : Hash :=
  if h : 1 < leaves.length then compute_root (pairUp leaves) else leaves.headD []
termination_by leaves.length
decreasing_by
  rw [pairUp_length]
  omega

/-- Tree construction from MerkleTree::new in src/host/src/merkle.rs: the
empty-input assert is modelled as EmptyInputError; otherwise leaves are the
leaf hashes of the addresses in order and the root is computed from them. -/
def MerkleTree.new (addresses : List (List Byte)) : Except MerkleError MerkleTree :=
  if addresses = [] then .error .EmptyInputError
  else
    let leaves := addresses.map compute_leaf
    .ok { leaves := leaves, root := compute_root leaves }

/-- Sibling recorded while scanning one level in MerkleTree::get_proof: the
inner loop walks pairs left to right and pushes the sibling of the node at
the current index; a final unpaired node at the current index pushes itself. -/
def proofLevel : List Hash → Nat → List Hash
  | [], _ => []
  | [x], ci => if ci = 0 then [x] else []
  | x :: y :: rest, ci =>
      if ci = 0 then [y]
      else if ci = 1 then [x]
      else proofLevel rest (ci - 2)

/-- Level loop of MerkleTree::get_proof in src/host/src/merkle.rs: collect
the sibling at each level, reduce the level, and halve the index. -/
def get_proof_levels (level : List Hash) (ci : Nat) : List Hash :=
  if h : 1 < level.length then
    proofLevel level ci ++ get_proof_levels (pairUp level) (ci / 2)
  else []
termination_by level.length
decreasing_by
  rw [pairUp_length]
  omega

/-- Proof extraction from MerkleTree::get_proof in src/host/src/merkle.rs:
the out-of-bounds assert is modelled as IndexOutOfRangeError. -/
def MerkleTree.get_proof (t : MerkleTree) (index : Nat) : Except MerkleError (List Hash) :=
  if index < t.leaves.length then .ok (get_proof_levels t.leaves index)
  else .error .IndexOutOfRangeError

/-- Private input of the guest, from ClaimInput in src/core/src/lib.rs. -/
structure ClaimInput where
  user_address : List Byte
  merkle_proof : List Hash
  leaf_index : Nat
  epoch_id : Nat
deriving DecidableEq

/-- Public input of the guest, from PublicInputs in src/core/src/lib.rs. -/
structure PublicInputs where
  merkle_root : Hash
  epoch_id : Nat
deriving DecidableEq

/-- Journal output of the guest, from ClaimOutput in src/core/src/lib.rs. -/
structure ClaimOutput where
  merkle_root : Hash
  nullifier : Hash
  epoch_id : Nat
deriving DecidableEq

/-- Failures of the guest entry, named as in the spec; the Rust guest
signals both by assert panics, aborting without committing anything. -/
inductive ClaimError where
  | InvalidProofError
  | EpochMismatchError
deriving DecidableEq

/-- Guest entry, from main in src/methods/guest/src/main.rs: compute the
leaf, verify the Merkle proof against the public root, check the epochs
agree, and commit the output record; the committed value is the only
effect, so the function returns it. -/
def verify_claim (claim_input : ClaimInput) (public_inputs : PublicInputs) :
    Except ClaimError ClaimOutput :=
  let leaf := compute_leaf claim_input.user_address
  let is_valid := verify_merkle_proof leaf claim_input.merkle_proof
    claim_input.leaf_index public_inputs.merkle_root
  if is_valid then
    if claim_input.epoch_id = public_inputs.epoch_id then
      .ok { merkle_root := public_inputs.merkle_root,
            nullifier := compute_nullifier claim_input.user_address claim_input.epoch_id,
            epoch_id := claim_input.epoch_id }
    else .error .EpochMismatchError
  else .error .InvalidProofError

/-- Verifier written as the spec words it, for the refinement claim about
the verifier algorithm: a left fold over the proof carrying the computed
hash and the halving index, compared with the root at the end. -/
def verifySpecFold (leaf : Hash) (proof : List Hash) (index : Nat) (root : Hash) : Bool :=
  (proof.foldl
    (fun s e => (if s.2 % 2 = 0 then hash_pair s.1 e else hash_pair e s.1, s.2 / 2))
    (leaf, index)).1 == root

/-- Value denoted by a little-endian byte list, used to state that leBytes
is a faithful fixed-width encoding. -/
def leValue : List Byte → Nat
  | [] => 0
  | b :: rest => b + 256 * leValue rest

/-- The verifier loop is the left fold the spec describes. -/
theorem verifyLoop_eq_foldl (proof : List Hash) :
    ∀ (c : Hash) (i : Nat),
      verifyLoop c proof i =
        (proof.foldl
          (fun s e => (if s.2 % 2 = 0 then hash_pair s.1 e else hash_pair e s.1, s.2 / 2))
          (c, i)).1 := by
  induction proof with
  | nil => intro c i; rfl
  | cons e rest ih =>
      intro c i
      simp only [verifyLoop, List.foldl_cons]
      exact ih _ _

/-- The verifier loop reads only the low bits of the index: the index can
be reduced modulo 2 to the power of the proof length. -/
theorem verifyLoop_mod (proof : List Hash) :
    ∀ (c : Hash) (i : Nat), verifyLoop c proof i = verifyLoop c proof (i % 2 ^ proof.length) := by
  induction proof with
  | nil => intro c i; rfl
  | cons e rest ih =>
      intro c i
      simp only [verifyLoop, List.length_cons]
      have h1 : i % 2 ^ (rest.length + 1) % 2 = i % 2 := by
        rw [Nat.mod_mod_of_dvd]
        exact dvd_pow_self 2 (Nat.succ_ne_zero _)
      have h2 : i % 2 ^ (rest.length + 1) / 2 = i / 2 % 2 ^ rest.length := by
        rw [pow_succ, mul_comm]
        exact Nat.mod_mul_right_div_self i 2 (2 ^ rest.length)
      simp only [h1, h2]
      exact ih _ _

/-- C3. Verifier algorithm: verify_merkle_proof coincides with the fold the
spec describes, starting from the leaf and the index, hashing left or right
by the parity of the running index and halving it, then comparing with the
root; being a total function, it returns a Boolean for every input,
including the empty or malformed proof, and never raises an error. -/
theorem verify_merkle_proof_is_spec_fold (leaf : Hash) (proof : List Hash) (index : Nat)
    (root : Hash) : verify_merkle_proof leaf proof index root = verifySpecFold leaf proof index root := by
  unfold verify_merkle_proof verifySpecFold
  rw [verifyLoop_eq_foldl]

/-- C9. The verifier depends only on the low bits of the index: reducing
the index modulo 2 to the power of the proof length leaves the result
unchanged, and with an empty proof the verifier returns the comparison of
leaf and root for every index. -/
theorem verify_merkle_proof_index_low_bits (leaf : Hash) (proof : List Hash) (index : Nat)
    (root : Hash) :
    verify_merkle_proof leaf proof index root =
      verify_merkle_proof leaf proof (index % 2 ^ proof.length) root ∧
    verify_merkle_proof leaf [] index root = (leaf == root) := by
  constructor
  · unfold verify_merkle_proof
    rw [verifyLoop_mod]
  · rfl

/-- Scanning one level with more nodes than the current index records
exactly one sibling, and one verifier step on that sibling produces the
parent node of the current position in the reduced level. -/
theorem proofLevel_step (l : List Hash) (ci : Nat) (h : ci < l.length) :
    ∃ sib, proofLevel l ci = [sib] ∧
      (if ci % 2 = 0 then hash_pair (l.getD ci []) sib
       else hash_pair sib (l.getD ci [])) = (pairUp l).getD (ci / 2) [] := by
  match l with
  | [] => simp at h
  | [x] =>
      have hci : ci = 0 := by simp at h; omega
      subst hci
      exact ⟨x, rfl, by simp [pairUp, proofLevel]⟩
  | x :: y :: rest =>
      match ci with
      | 0 => exact ⟨y, rfl, by simp [pairUp, proofLevel]⟩
      | 1 => exact ⟨x, rfl, by simp [pairUp, proofLevel]⟩
      | k + 2 =>
          have hk : k < rest.length := by simp at h; omega
          obtain ⟨sib, h1, h2⟩ := proofLevel_step rest k hk
          refine ⟨sib, ?_, ?_⟩
          · simpa [proofLevel] using h1
          · have e1 : (k + 2) % 2 = k % 2 := by omega
            have e2 : (k + 2) / 2 = k / 2 + 1 := by omega
            have e3 : (x :: y :: rest).getD (k + 2) [] = rest.getD k [] := rfl
            have e4 : (pairUp (x :: y :: rest)).getD ((k + 2) / 2) [] =
                (pairUp rest).getD (k / 2) [] := by
              rw [e2]; rfl
            simp only [e1, e3, e4]
            exact h2

/-- Round-trip kernel: starting from the node at the current index of any
level, running the verifier loop over the siblings collected by the proof
extractor recomputes exactly the root of that level. -/
theorem roundtrip_aux (l : List Hash) (ci : Nat) (h : ci < l.length) :
    verifyLoop (l.getD ci []) (get_proof_levels l ci) ci = compute_root l := by
  by_cases h1 : 1 < l.length
  · obtain ⟨sib, hp, hs⟩ := proofLevel_step l ci h
    rw [get_proof_levels, dif_pos h1, hp]
    rw [compute_root, dif_pos h1]
    simp only [List.singleton_append, verifyLoop]
    rw [hs]
    exact roundtrip_aux (pairUp l) (ci / 2) (by rw [pairUp_length]; omega)
  · have h2 : l.length = 1 := by omega
    obtain ⟨x, rfl⟩ := List.length_eq_one.mp h2
    have hci : ci = 0 := by simp at h; omega
    subst hci
    rw [get_proof_levels, dif_neg h1, compute_root, dif_neg h1]
    rfl
termination_by l.length
decreasing_by
  rw [pairUp_length]
  omega

/-- C1. Round-trip membership: for every non-empty list of 20-byte
addresses and every index i below the leaf count, building the tree
succeeds, extracting the proof for i succeeds, and verifying the leaf hash
of address i with that proof at index i against the tree root returns
true. -/
theorem merkle_round_trip (addresses : List (List Byte)) (i : Nat)
    (h20 : ∀ a ∈ addresses, a.length = 20) (hne : addresses ≠ [])
    (hi : i < addresses.length) :
    ∃ t proof, MerkleTree.new addresses = .ok t ∧ t.get_proof i = .ok proof ∧
      verify_merkle_proof (compute_leaf addresses[i]) proof i t.root = true := by
  have hlen : i < (addresses.map compute_leaf).length := by simpa using hi
  refine ⟨⟨addresses.map compute_leaf, compute_root (addresses.map compute_leaf)⟩,
    get_proof_levels (addresses.map compute_leaf) i, ?_, ?_, ?_⟩
  · unfold MerkleTree.new
    rw [if_neg hne]
  · unfold MerkleTree.get_proof
    rw [if_pos hlen]
  · have hroot := roundtrip_aux (addresses.map compute_leaf) i hlen
    have hgetd : (addresses.map compute_leaf).getD i [] = compute_leaf addresses[i] := by
      rw [List.getD_eq_getElem?_getD, List.getElem?_eq_getElem hlen]
      simp
    rw [hgetd] at hroot
    unfold verify_merkle_proof
    rw [hroot]
    simp

/-- The proof extractor records exactly one sibling per level, so the proof
for an in-range index has length the ceiling of the base-2 logarithm of the
level size. -/
theorem get_proof_levels_length (l : List Hash) (ci : Nat) (h : ci < l.length) :
    (get_proof_levels l ci).length = Nat.clog 2 l.length := by
  by_cases h1 : 1 < l.length
  · obtain ⟨sib, hp, _⟩ := proofLevel_step l ci h
    rw [get_proof_levels, dif_pos h1, hp]
    have hrec := get_proof_levels_length (pairUp l) (ci / 2) (by rw [pairUp_length]; omega)
    rw [Nat.clog_of_two_le (by omega) (by omega)]
    simp only [List.singleton_append, List.length_cons, hrec, pairUp_length]
    have e1 : (l.length + 2 - 1) / 2 = (l.length + 1) / 2 := by omega
    rw [e1]
  · have h2 : l.length = 1 := by omega
    rw [get_proof_levels, dif_neg h1, h2, Nat.clog_one_right]
    rfl
termination_by l.length
decreasing_by
  rw [pairUp_length]
  omega

/-- C7. Proof length: for a tree built from n addresses, n at least 1, and
any index below n, proof extraction succeeds and the returned proof has
exactly the ceiling of log2 n sibling hashes, which is 0 when n = 1. -/
theorem get_proof_length_clog (addresses : List (List Byte)) (i : Nat)
    (hne : addresses ≠ []) (hi : i < addresses.length) :
    ∃ t proof, MerkleTree.new addresses = .ok t ∧ t.get_proof i = .ok proof ∧
      proof.length = Nat.clog 2 addresses.length ∧
      (addresses.length = 1 → proof.length = 0) := by
  have hlen : i < (addresses.map compute_leaf).length := by simpa using hi
  refine ⟨⟨addresses.map compute_leaf, compute_root (addresses.map compute_leaf)⟩,
    get_proof_levels (addresses.map compute_leaf) i, ?_, ?_, ?_, ?_⟩
  · unfold MerkleTree.new
    rw [if_neg hne]
  · unfold MerkleTree.get_proof
    rw [if_pos hlen]
  · rw [get_proof_levels_length _ _ hlen]
    simp
  · intro hone
    rw [get_proof_levels_length _ _ hlen]
    simp [hone]

/-- C8. Empty-input failure: building from the empty address list fails
with EmptyInputError, and building from any non-empty address list
succeeds with one leaf per address, in input order. -/
theorem merkle_new_empty_and_nonempty (addresses : List (List Byte))
    (hne : addresses ≠ []) :
    MerkleTree.new ([] : List (List Byte)) = .error .EmptyInputError ∧
    ∃ t, MerkleTree.new addresses = .ok t ∧ t.leaves = addresses.map compute_leaf ∧
      t.leaves.length = addresses.length := by
  refine ⟨rfl, ⟨addresses.map compute_leaf, compute_root (addresses.map compute_leaf)⟩, ?_, rfl, by simp⟩
  unfold MerkleTree.new
  rw [if_neg hne]

/-- C10. Single-member tree: for any address a, building from [a] succeeds,
the root is the leaf hash of a itself, and the proof for index 0 is empty. -/
theorem merkle_single_member (a : List Byte) :
    ∃ t, MerkleTree.new [a] = .ok t ∧ t.root = compute_leaf a ∧
      t.get_proof 0 = .ok [] := by
  refine ⟨⟨[compute_leaf a], compute_root [compute_leaf a]⟩, rfl, ?_, ?_⟩
  · rw [compute_root, dif_neg (by simp)]
    rfl
  · unfold MerkleTree.get_proof
    rw [if_pos (by simp)]
    rw [get_proof_levels, dif_neg (by simp)]

/-- Root of a three-node level: the first two nodes pair, the last is
hashed with itself, and the two parents pair into the root. -/
theorem compute_root_three (a b c : Hash) :
    compute_root [a, b, c] = hash_pair (hash_pair a b) (hash_pair c c) := by
  rw [compute_root, dif_pos (by simp)]
  rw [show pairUp [a, b, c] = [hash_pair a b, hash_pair c c] from rfl]
  rw [compute_root, dif_pos (by simp)]
  rw [show pairUp [hash_pair a b, hash_pair c c] =
      [hash_pair (hash_pair a b) (hash_pair c c)] from rfl]
  rw [compute_root, dif_neg (by simp)]
  rfl

/-- Root of a four-node level whose last two nodes are equal: identical to
the three-node root by the duplication policy. -/
theorem compute_root_four_dup (a b c : Hash) :
    compute_root [a, b, c, c] = hash_pair (hash_pair a b) (hash_pair c c) := by
  rw [compute_root, dif_pos (by simp)]
  rw [show pairUp [a, b, c, c] = [hash_pair a b, hash_pair c c] from rfl]
  rw [compute_root, dif_pos (by simp)]
  rw [show pairUp [hash_pair a b, hash_pair c c] =
      [hash_pair (hash_pair a b) (hash_pair c c)] from rfl]
  rw [compute_root, dif_neg (by simp)]
  rfl

/-- C4. Odd-level duplication policy: for distinct addresses A, B, C, the
tree built from [A, B, C] has root hash_pair(hash_pair(leaf A, leaf B),
hash_pair(leaf C, leaf C)), and the tree built from [A, B, C, C] has the
same root. -/
theorem odd_level_duplication (A B C : List Byte)
    (hAB : A ≠ B) (hAC : A ≠ C) (hBC : B ≠ C) :
    ∃ t t', MerkleTree.new [A, B, C] = .ok t ∧ MerkleTree.new [A, B, C, C] = .ok t' ∧
      t.root = hash_pair (hash_pair (compute_leaf A) (compute_leaf B))
        (hash_pair (compute_leaf C) (compute_leaf C)) ∧
      t.root = t'.root := by
  refine ⟨⟨[compute_leaf A, compute_leaf B, compute_leaf C],
      compute_root [compute_leaf A, compute_leaf B, compute_leaf C]⟩,
    ⟨[compute_leaf A, compute_leaf B, compute_leaf C, compute_leaf C],
      compute_root [compute_leaf A, compute_leaf B, compute_leaf C, compute_leaf C]⟩,
    rfl, rfl, ?_, ?_⟩
  · exact compute_root_three _ _ _
  · rw [compute_root_three, compute_root_four_dup]

/-- C2. Claim contract: verify_claim fails with InvalidProofError when the
Merkle proof does not verify against the public root; otherwise it fails
with EpochMismatchError when the private epoch differs from the public
epoch; otherwise it returns exactly the record of the public root, the
nullifier of (identity, epoch), and the public epoch. -/
theorem verify_claim_contract (inp : ClaimInput) (pub : PublicInputs) :
    (verify_merkle_proof (compute_leaf inp.user_address) inp.merkle_proof inp.leaf_index
        pub.merkle_root = false → verify_claim inp pub = .error .InvalidProofError) ∧
    (verify_merkle_proof (compute_leaf inp.user_address) inp.merkle_proof inp.leaf_index
        pub.merkle_root = true → inp.epoch_id ≠ pub.epoch_id →
        verify_claim inp pub = .error .EpochMismatchError) ∧
    (verify_merkle_proof (compute_leaf inp.user_address) inp.merkle_proof inp.leaf_index
        pub.merkle_root = true → inp.epoch_id = pub.epoch_id →
        verify_claim inp pub =
          .ok ⟨pub.merkle_root, compute_nullifier inp.user_address pub.epoch_id,
            pub.epoch_id⟩) := by
  refine ⟨?_, ?_, ?_⟩
  · intro hv
    simp [verify_claim, hv]
  · intro hv he
    simp [verify_claim, hv, he]
  · intro hv he
    simp [verify_claim, hv, he]

/-- Little-endian decoding inverts leBytes on values that fit the width. -/
theorem leValue_leBytes : ∀ (n v : Nat), v < 2 ^ (8 * n) → leValue (leBytes n v) = v := by
  intro n
  induction n with
  | zero =>
      intro v hv
      simp only [Nat.mul_zero, pow_zero, Nat.lt_one_iff] at hv
      simp [leBytes, leValue, hv]
  | succ k ih =>
      intro v hv
      have hb : v < 256 * 2 ^ (8 * k) := by
        have e : 8 * (k + 1) = 8 * k + 8 := by ring
        rw [e, pow_add] at hv
        omega
      simp only [leBytes, leValue]
      rw [ih (v / 256) (Nat.div_lt_of_lt_mul hb)]
      omega

/-- C5. Nullifier derivation: for a 20-byte identity and an epoch below
2^64, compute_nullifier is the SHA-256 of the identity bytes followed by
the epoch in fixed-width 8-byte little-endian encoding, the encoding is a
faithful 8-byte representation of the epoch, and the function is pure:
equal inputs give bit-identical outputs. -/
theorem compute_nullifier_spec (address : List Byte) (epoch : Nat)
    (h20 : address.length = 20) (h64 : epoch < 2 ^ 64) :
    compute_nullifier address epoch = sha256 (address ++ leBytes 8 epoch) ∧
    (leBytes 8 epoch).length = 8 ∧
    leValue (leBytes 8 epoch) = epoch ∧
    ∀ a2 e2, a2 = address → e2 = epoch →
      compute_nullifier a2 e2 = compute_nullifier address epoch := by
  refine ⟨rfl, rfl, ?_, ?_⟩
  · exact leValue_leBytes 8 epoch h64
  · intro a2 e2 ha he
    rw [ha, he]

/-- Witness for C1: a concrete three-address tree verifies the proof for
index 2 against its root. -/
theorem merkle_round_trip_witness :
    ∃ t proof,
      MerkleTree.new [List.replicate 20 1, List.replicate 20 2, List.replicate 20 3] = .ok t ∧
      t.get_proof 2 = .ok proof ∧
      verify_merkle_proof
        (compute_leaf ([List.replicate 20 1, List.replicate 20 2, List.replicate 20 3][2]))
        proof 2 t.root = true :=
  merkle_round_trip [List.replicate 20 1, List.replicate 20 2, List.replicate 20 3] 2
    (by decide) (by decide) (by decide)

/-- Witness for C2: a concrete successful claim with an empty proof on a
single-leaf root and matching epochs. -/
theorem verify_claim_contract_witness :
    verify_claim ⟨List.replicate 20 1, [], 0, 7⟩ ⟨compute_leaf (List.replicate 20 1), 7⟩ =
      .ok ⟨compute_leaf (List.replicate 20 1),
        compute_nullifier (List.replicate 20 1) 7, 7⟩ :=
  (verify_claim_contract ⟨List.replicate 20 1, [], 0, 7⟩
      ⟨compute_leaf (List.replicate 20 1), 7⟩).2.2
    (by simp [verify_merkle_proof, verifyLoop]) rfl

/-- Witness for C4: the duplication identity at three concrete distinct
addresses. -/
theorem odd_level_duplication_witness :
    ∃ t t',
      MerkleTree.new [List.replicate 20 1, List.replicate 20 2, List.replicate 20 3] = .ok t ∧
      MerkleTree.new [List.replicate 20 1, List.replicate 20 2, List.replicate 20 3,
        List.replicate 20 3] = .ok t' ∧
      t.root = hash_pair
        (hash_pair (compute_leaf (List.replicate 20 1)) (compute_leaf (List.replicate 20 2)))
        (hash_pair (compute_leaf (List.replicate 20 3)) (compute_leaf (List.replicate 20 3))) ∧
      t.root = t'.root :=
  odd_level_duplication (List.replicate 20 1) (List.replicate 20 2) (List.replicate 20 3)
    (by decide) (by decide) (by decide)

/-- Witness for C5: the nullifier characterisation at a concrete 20-byte
identity and epoch 300. -/
theorem compute_nullifier_spec_witness :
    compute_nullifier (List.replicate 20 9) 300 =
      sha256 (List.replicate 20 9 ++ leBytes 8 300) ∧
    (leBytes 8 300).length = 8 ∧
    leValue (leBytes 8 300) = 300 ∧
    ∀ a2 e2, a2 = List.replicate 20 9 → e2 = 300 →
      compute_nullifier a2 e2 = compute_nullifier (List.replicate 20 9) 300 :=
  compute_nullifier_spec (List.replicate 20 9) 300 (by decide) (by decide)

/-- Witness for C7: a five-address tree gives a proof of length 3 for
index 2. -/
theorem get_proof_length_clog_witness :
    ∃ t proof, MerkleTree.new [[1], [2], [3], [4], [5]] = .ok t ∧
      t.get_proof 2 = .ok proof ∧
      proof.length = Nat.clog 2 ([[1], [2], [3], [4], [5]] : List (List Byte)).length ∧
      (([[1], [2], [3], [4], [5]] : List (List Byte)).length = 1 → proof.length = 0) :=
  get_proof_length_clog [[1], [2], [3], [4], [5]] 2 (by decide) (by decide)

/-- Witness for C8: the empty list fails and a concrete one-address list
builds with one leaf. -/
theorem merkle_new_empty_and_nonempty_witness :
    MerkleTree.new ([] : List (List Byte)) = .error .EmptyInputError ∧
    ∃ t, MerkleTree.new [[0]] = .ok t ∧ t.leaves = [[0]].map compute_leaf ∧
      t.leaves.length = ([[0]] : List (List Byte)).length :=
  merkle_new_empty_and_nonempty [[0]] (by decide)
